import Mathlib

/-!
Verification of the HLS segment mirroring pipeline (`extractor.py`).

Shallow embedding conventions:
* Python strings are Lean `String`s; the text-level operations (`strip`,
  `startswith`, regex scans) are modelled as explicit functions on `String.data`.
* Playlist texts are modelled at the level of their line lists (the result of
  Python's `text.strip().split("\n")`).
* Python `float` durations are modelled as `ℚ` (exact decimal arithmetic; the
  source only ever parses decimal literals and formats with `:.3f`).
* Network effects are oracles: a segment-fetch oracle `ℕ → Option String`
  gives, for the i-th URI line encountered, either the fetched payload or a
  failure; manifest/playlist fetches are `Option` parameters.
* A channel's directory on disk is an association list of
  (filename, file content); a missing directory is `none`.
* A Python uncaught exception (the `float(...)` `ValueError` reachable in
  `download_segments`) is modelled as an `Option.none` result of the loop.
-/

namespace Extractor

/-! ## Python string primitives -/

/-- ASCII whitespace characters recognised by Python's `str.strip`. -/
def pyWS (c : Char) : Bool :=
  c == ' ' || c == '\t' || c == '\n' || c == '\r' || c == '\x0b' || c == '\x0c'

/-- Python `str.strip()`: drop whitespace from both ends. -/
def pyStrip (s : String) : String :=
  ⟨((s.data.dropWhile pyWS).reverse.dropWhile pyWS).reverse⟩

/-- Python `str.startswith(p)`. -/
def pyStartsWith (s p : String) : Bool :=
  p.data.isPrefixOf s.data

/-- Character class `[\d.]` of the `#EXTINF` regex. -/
def digitDot (c : Char) : Bool := c.isDigit || c == '.'

/-- Numeric value of a decimal digit character. -/
def charVal (c : Char) : ℕ := c.toNat - 48

/-- Value of a most-significant-first decimal digit string. -/
def valDigits (cs : List Char) : ℕ := cs.foldl (fun a c => 10 * a + charVal c) 0

/-- `re.search(r"#EXTINF:([\d.]+)", line)` over the character list: leftmost
position where the literal `#EXTINF:` is followed by at least one `[\d.]`
character; the group is the maximal such run. -/
def extinfSearch : List Char → Option (List Char)
  | [] => none
  | c :: cs =>
    if "#EXTINF:".data.isPrefixOf (c :: cs) then
      let run := ((c :: cs).drop 8).takeWhile digitDot
      if run.isEmpty then extinfSearch cs else some run
    else extinfSearch cs

/-- The matched group of `re.search(r"#EXTINF:([\d.]+)", s)`, if any. -/
def extinfGroup (s : String) : Option String :=
  (extinfSearch s.data).map (fun cs => ⟨cs⟩)

/-- `re.search(r"BANDWIDTH=(\d+)", line)`: leftmost occurrence of the literal
`BANDWIDTH=` followed by at least one digit; value of the maximal digit run. -/
def bwSearch : List Char → Option ℕ
  | [] => none
  | c :: cs =>
    if "BANDWIDTH=".data.isPrefixOf (c :: cs) then
      let run := ((c :: cs).drop 10).takeWhile Char.isDigit
      if run.isEmpty then bwSearch cs else some (valDigits run)
    else bwSearch cs

/-- Bandwidth extraction of `get_best_quality_playlist`: the matched value,
defaulting to `0` when the regex does not match. -/
def bandwidthOf (s : String) : ℕ := (bwSearch s.data).getD 0

/-- Python `float(s)` restricted to strings drawn from the `[\d.]` class (the
only strings the source ever feeds it): defined iff there is at most one dot
and at least one digit; `none` models the raised `ValueError`. -/
def pyFloatQ (s : String) : Option ℚ :=
  let cs := s.data
  if cs.all digitDot && cs.count '.' ≤ 1 && cs.any Char.isDigit then
    let intPart := cs.takeWhile (fun c => c ≠ '.')
    let fracPart := (cs.dropWhile (fun c => c ≠ '.')).drop 1
    some (mkRat (valDigits intPart * 10 ^ fracPart.length + valDigits fracPart)
      (10 ^ fracPart.length))
  else none

/-- Little-endian decimal digit characters of `n`, with explicit fuel so
that the definition reduces by structural recursion. -/
def natDigitsRev : ℕ → ℕ → List Char
  | 0, _ => []
  | fuel + 1, n =>
    if n = 0 then [] else Nat.digitChar (n % 10) :: natDigitsRev fuel (n / 10)

/-- Decimal digit characters of `n`, most significant first (`"0"` for zero),
as produced by Python's integer formatting. -/
def natChars (n : ℕ) : List Char :=
  if n = 0 then ['0'] else (natDigitsRev n n).reverse

/-- `manifest_url.rsplit("/", 1)[0]`: everything before the last slash, or the
whole string when it has no slash. -/
def rsplitBase (s : String) : String :=
  if s.data.contains '/' then ⟨((s.data.reverse.dropWhile (fun c => c ≠ '/')).drop 1).reverse⟩
  else s

/-- URL resolution applied to playlist and segment URIs: absolute URLs
(starting with `http`) pass through, otherwise the base's directory is
prepended. -/
def resolveUrl (base url : String) : String :=
  if pyStartsWith url "http" then url else rsplitBase base ++ "/" ++ url

/-! ## Variant parsing and selection (`get_best_quality_playlist`) -/

/-- The `(bandwidth, playlist_url)` pairs collected by the enumerate loop of
`get_best_quality_playlist`: on each line starting with `#EXT-X-STREAM-INF`,
the bandwidth attribute of that line together with the following line
(stripped, made absolute against the manifest URL), provided a following line
exists. -/
def parseVariants (murl : String) : List String → List (ℕ × String)
  | [] => []
  | l :: ls =>
    let rest := parseVariants murl ls
    if pyStartsWith l "#EXT-X-STREAM-INF" then
      match ls with
      | [] => rest
      | nxt :: _ => (bandwidthOf l, resolveUrl murl (pyStrip nxt)) :: rest
    else rest

/-- Insertion step of a stable descending sort on the bandwidth component:
the new element goes after every element of equal or larger key, exactly the
equal-key order `list.sort(key=..., reverse=True)` produces. -/
def insertDesc (x : ℕ × String) : List (ℕ × String) → List (ℕ × String)
  | [] => [x]
  | y :: ys => if x.1 ≤ y.1 then y :: insertDesc x ys else x :: y :: ys

/-- `playlists.sort(key=lambda x: x[0], reverse=True)`: stable descending
sort by bandwidth. -/
def pySortDesc (l : List (ℕ × String)) : List (ℕ × String) :=
  l.foldl (fun acc x => insertDesc x acc) []

/-- `get_best_quality_playlist(master_manifest, manifest_url)` on the line
list of the master text: parse the variants, sort descending by bandwidth,
return the URL of the head; `none` when no variant parsed. -/
def get_best_quality_playlist (lines : List String) (murl : String) : Option String :=
  match pySortDesc (parseVariants murl lines) with
  | [] => none
  | p :: _ => some p.2

/-! ## Segment synchronizer (`download_segments`) -/

/-- `MAX_SEGMENTS = 10`: the retention window. -/
def MAX_SEGMENTS : ℕ := 10

def SEGMENTS_DIR : String := "segments"

def GITHUB_REPO : String := "invisiblecoder99/youtube-restream"

def GITHUB_BRANCH : String := "main"

/-- Zero-padded segment filename `f"seg_{n:04d}.ts"`. -/
def segName (n : ℕ) : String :=
  "seg_" ++ ⟨List.replicate (4 - (natChars n).length) '0' ++ natChars n⟩ ++ ".ts"

/-- One entry of the `segments` list built by `download_segments` (the
`segment_url` local is also recorded, as the `url` field). -/
structure PySeg where
  filename : String
  duration : ℚ
  path : String
  url : String
  deriving DecidableEq

/-- Overwrite-or-create file write (`open(path, "wb")` upserts by name). -/
def fsWrite (files : List (String × String)) (name content : String) :
    List (String × String) :=
  if files.any (fun f => f.1 == name) then
    files.map (fun f => if f.1 == name then (name, content) else f)
  else files ++ [(name, content)]

/-- Content of the named file, if present. -/
def lookupFile : List (String × String) → String → Option String
  | [], _ => none
  | f :: fs, n => if f.1 == n then some f.2 else lookupFile fs n

/-- The per-line loop of `download_segments` over the stripped line list of
the fetched media playlist.  `fetch i` is the payload (or failure) of the
fetch of the `i`-th URI line encountered; `k` counts URI lines already
encountered, `n` counts segments persisted so far (which is also the next
filename index), `info` is the pending `segment_info["duration"]`.  Returns
the updated directory contents, the `segments` list, and the number of
segment fetches attempted; `none` models the uncaught `ValueError` raised by
`float(...)` on a matched but malformed duration group. -/
def segLoop (chid purl : String) (fetch : ℕ → Option String) :
    List String → ℕ → ℕ → Option ℚ → List (String × String) →
    Option (List (String × String) × List PySeg × ℕ)
  | [], _, _, _, files => some (files, [], 0)
  | l :: ls, k, n, info, files =>
    let line := pyStrip l
    if pyStartsWith line "#EXTINF" then
      match extinfGroup line with
      | some g =>
        match pyFloatQ g with
        | some d => segLoop chid purl fetch ls k n (some d) files
        | none => none
      | none => segLoop chid purl fetch ls k n info files
    else if pyStartsWith line "#" || line == "" then
      segLoop chid purl fetch ls k n info files
    else
      let segUrl := resolveUrl purl line
      match fetch k with
      | some payload =>
        let name := segName n
        let files' := fsWrite files name payload
        let seg : PySeg :=
          { filename := name, duration := info.getD 2,
            path := SEGMENTS_DIR ++ "/" ++ chid ++ "/" ++ name, url := segUrl }
        if MAX_SEGMENTS ≤ n + 1 then some (files', [seg], 1)
        else
          match segLoop chid purl fetch ls (k + 1) (n + 1) none files' with
          | some (files'', segs, att) => some (files'', seg :: segs, att + 1)
          | none => none
      | none =>
        match segLoop chid purl fetch ls (k + 1) n info files with
        | some (files', segs, att) => some (files', segs, att + 1)
        | none => none

/-- A line the loop treats as a segment URI: neither blank nor a
tag/comment line after stripping. -/
def isUriLine (l : String) : Bool :=
  !pyStartsWith (pyStrip l) "#" && !(pyStrip l == "")

/-- Number of segment-URI lines of a media playlist. -/
def uriCount (lines : List String) : ℕ := lines.countP isUriLine

/-! ## Retention pruning (`cleanup_old_segments`) -/

/-- Code-point lexicographic order on names, Python's `sorted` order. -/
def lexLe : List Char → List Char → Bool
  | [], _ => true
  | _ :: _, [] => false
  | a :: as, b :: bs =>
    if a.toNat < b.toNat then true
    else if b.toNat < a.toNat then false
    else lexLe as bs

def strLexLe (a b : String) : Bool := lexLe a.data b.data

def insSorted (x : String) : List String → List String
  | [] => [x]
  | y :: ys => if strLexLe x y then x :: y :: ys else y :: insSorted x ys

/-- `sorted(...)` of a list of names. -/
def sortNames (l : List String) : List String := l.foldr insSorted []

def pyEndsWith (s p : String) : Bool := p.data.isSuffixOf s.data

/-- `channel_dir.glob("seg_*.ts")` filter: names starting with `seg_` and
ending with `.ts` (`*` matches any run of non-separator characters; file
names contain no path separator). -/
def matchesSegTs (name : String) : Bool :=
  pyStartsWith name "seg_" && pyEndsWith name ".ts"

/-- `cleanup_old_segments(channel_dir, keep)` on the directory contents:
collect the `seg_*.ts` names sorted lexicographically and unlink all but
the last `keep` of them.  `main` calls it with `keep = MAX_SEGMENTS`. -/
def cleanup_old_segments (files : List (String × String)) (keep : ℕ) :
    List (String × String) :=
  let segs := sortNames ((files.map Prod.fst).filter matchesSegTs)
  if keep < segs.length then
    let doomed := segs.take (segs.length - keep)
    files.filter (fun f => !(doomed.contains f.1))
  else files

/-- `cleanup_old_segments` including the `channel_dir.exists()` early
return: a missing directory is left missing and nothing is deleted. -/
def cleanupDir (dir : Option (List (String × String))) (keep : ℕ) :
    Option (List (String × String)) :=
  dir.map (fun files => cleanup_old_segments files keep)

/-! ## Playlist emission -/

/-- Rounding of a duration to an integer count of thousandths as performed
by `f"{x:.3f}"`: the value `⌊q * 1000 + 1/2⌋` computed directly on the
numerator and denominator (ties modelled half-up; the source's binary-float
tie behaviour differs only on exact decimal ties of the underlying double). -/
def thousandths (q : ℚ) : ℤ := Int.fdiv (2000 * q.num + (q.den : ℤ)) (2 * (q.den : ℤ))

/-- Spec-side rounding to three decimal places. -/
def roundTo3 (q : ℚ) : ℚ := mkRat (thousandths q) 1000

/-- The three fractional digit characters of `:.3f` output. -/
def pad3 (m : ℕ) : List Char :=
  [Nat.digitChar (m / 100), Nat.digitChar (m / 10 % 10), Nat.digitChar (m % 10)]

/-- Python `f"{x:.3f}"` for the nonnegative durations the pipeline handles. -/
def fmt3 (q : ℚ) : String :=
  ⟨natChars ((thousandths q).toNat / 1000) ++ '.' :: pad3 ((thousandths q).toNat % 1000)⟩

/-- Raw-content base URL of a channel's segment namespace
(`f"https://raw.githubusercontent.com/{GITHUB_REPO}/{GITHUB_BRANCH}/{SEGMENTS_DIR}/{channel_id}"`). -/
def githubChannelBase (chid : String) : String :=
  "https://raw.githubusercontent.com/" ++ GITHUB_REPO ++ "/" ++ GITHUB_BRANCH ++
    "/" ++ SEGMENTS_DIR ++ "/" ++ chid

/-- `generate_local_m3u8`: the emitted playlist lines (`None` when the
segment list is empty); the written file is these lines joined by newlines
at `segments/<channel_id>/playlist.m3u8`.  No `#EXT-X-ENDLIST` is emitted. -/
def generate_local_m3u8 (chid : String) (segs : List PySeg) : Option (List String) :=
  if segs.isEmpty then none
  else some
    (["#EXTM3U", "#EXT-X-VERSION:3", "#EXT-X-TARGETDURATION:10",
      "#EXT-X-MEDIA-SEQUENCE:0", ""] ++
      segs.flatMap (fun s =>
        ["#EXTINF:" ++ fmt3 s.duration ++ ",",
         githubChannelBase chid ++ "/" ++ s.filename]))

/-- `"\n".join(lines)`. -/
def joinLines : List String → String
  | [] => ""
  | [l] => l
  | l :: ls => l ++ "\n" ++ joinLines ls

/-- A configured channel record. -/
structure Channel where
  id : String
  name : String
  url : String
  logo : String
  group : String
  deriving DecidableEq

/-- A per-channel run outcome appended to `results`. -/
structure ChResult where
  channel : Channel
  success : Bool
  segments : ℕ
  deriving DecidableEq

/-- The fixed leading lines of `youtube.m3u` (`now` is the UTC timestamp). -/
def masterHeader (now : String) : List String :=
  ["#EXTM3U", "", "# YouTube Live Restream - Segments hosted on GitHub",
   "# Last updated: " ++ now, ""]

/-- The three lines appended to `youtube.m3u` for one successful channel. -/
def masterEntry (r : ChResult) : List String :=
  ["#EXTINF:-1 group-title=\"" ++ r.channel.group ++ "\" tvg-logo=\"" ++
      r.channel.logo ++ "\" tvg-id=\"" ++ r.channel.id ++ "\", " ++ r.channel.name,
   "https://raw.githubusercontent.com/" ++ GITHUB_REPO ++ "/" ++ GITHUB_BRANCH ++
      "/" ++ SEGMENTS_DIR ++ "/" ++ r.channel.id ++ "/playlist.m3u8",
   ""]

/-- `generate_master_m3u`: the header lines, then, for each channel in
order whose result is marked successful, its extended-info line, playlist
URL, and a blank line. -/
def generate_master_m3u (now : String) (results : List ChResult) : List String :=
  results.foldl (fun acc r => if r.success then acc ++ masterEntry r else acc)
    (masterHeader now)

/-! ## Run orchestration (`main`) -/

/-- Outcomes of the external effects of one channel's cycle: the resolver
result, the master-manifest fetch (as stripped lines), the media-playlist
fetch (as stripped lines), and the per-URI segment fetches. -/
structure ChanEnv where
  manifestUrl : Option String
  masterLines : Option (List String)
  mediaLines : Option (List String)
  fetch : ℕ → Option String

/-- One channel's cycle in `main`'s loop: resolve, fetch master, select the
variant (falling back to the manifest URL itself), download segments (which
creates the channel directory), and on success prune then emit the local
playlist.  Returns the updated channel directory and the appended result;
`none` models an uncaught exception. -/
def processChannel (env : ChanEnv) (ch : Channel)
    (dir : Option (List (String × String))) :
    Option (Option (List (String × String)) × ChResult) :=
  match env.manifestUrl with
  | none => some (dir, ⟨ch, false, 0⟩)
  | some murl =>
    match env.masterLines with
    | none => some (dir, ⟨ch, false, 0⟩)
    | some mlines =>
      let purl := (get_best_quality_playlist mlines murl).getD murl
      match env.mediaLines with
      | none => some (dir, ⟨ch, false, 0⟩)
      | some plines =>
        match segLoop ch.id purl env.fetch plines 0 0 none (dir.getD []) with
        | none => none
        | some (files', segs, _) =>
          if segs.isEmpty then some (some files', ⟨ch, false, 0⟩)
          else
            let files'' := cleanup_old_segments files' MAX_SEGMENTS
            let files3 :=
              match generate_local_m3u8 ch.id segs with
              | some plLines => fsWrite files'' "playlist.m3u8" (joinLines plLines)
              | none => files''
            some (some files3, ⟨ch, true, segs.length⟩)

/-- The channel loop of `main`: each channel is processed independently with
its own effect environment and directory; no channel's failure stops the
loop. -/
def runChannels (envOf : ℕ → ChanEnv) :
    List Channel → ℕ → (String → Option (List (String × String))) →
    Option (List ChResult × (String → Option (List (String × String))))
  | [], _, fs => some ([], fs)
  | ch :: rest, i, fs =>
    match processChannel (envOf i) ch (fs ch.id) with
    | none => none
    | some (dir', r) =>
      match runChannels envOf rest (i + 1)
          (fun s => if s == ch.id then dir' else fs s) with
      | none => none
      | some (rs, fsFin) => some (r :: rs, fsFin)

/-- `main` from channel loading onwards: an empty channel list exits with
status 1 before writing anything; otherwise every channel is processed, the
master playlist is written unconditionally, and the exit status is 0 exactly
when some channel succeeded.  The second component is the written master
playlist (`none` when it was never written). -/
def runMain (now : String) (envOf : ℕ → ChanEnv) (channels : List Channel)
    (fs : String → Option (List (String × String))) :
    Option (List ChResult × Option (List String) × ℕ) :=
  if channels.isEmpty then some ([], none, 1)
  else
    match runChannels envOf channels 0 fs with
    | none => none
    | some (results, _) =>
      some (results, some (generate_master_m3u now results),
        if 0 < results.countP (fun r => r.success) then 0 else 1)

/-- Second definition, following the amended claim C7's words: walking the
playlist lines, a parseable duration tag replaces the pending duration
value; a successfully fetched URI records the pending value, or the 2.0
seconds default when none is pending since the last recorded segment;
recording stops once `MAX_SEGMENTS` segments are recorded; a tag whose
matched numeric text is not a valid float literal aborts the scan. -/
def durationsSpec (fetch : ℕ → Option String) :
    List String → ℕ → ℕ → Option ℚ → Option (List ℚ)
  | [], _, _, _ => some []
  | l :: ls, k, n, pending =>
    let line := pyStrip l
    if pyStartsWith line "#EXTINF" then
      match extinfGroup line with
      | some g =>
        match pyFloatQ g with
        | some d => durationsSpec fetch ls k n (some d)
        | none => none
      | none => durationsSpec fetch ls k n pending
    else if pyStartsWith line "#" || line == "" then
      durationsSpec fetch ls k n pending
    else
      match fetch k with
      | some _ =>
        if MAX_SEGMENTS ≤ n + 1 then some [pending.getD 2]
        else (durationsSpec fetch ls (k + 1) (n + 1) none).map
          (fun ds => pending.getD 2 :: ds)
      | none => durationsSpec fetch ls (k + 1) n pending

/-! ### Selector lemmas -/

/-- One max-step: keep the earlier element unless the new one is strictly
larger. -/
def maxStep (b y : ℕ × String) : ℕ × String := if y.1 ≤ b.1 then b else y

/-- The first-encountered maximum of a variant list. -/
def firstMax : List (ℕ × String) → Option (ℕ × String)
  | [] => none
  | x :: xs => some (xs.foldl maxStep x)

theorem length_insertDesc (x : ℕ × String) (l : List (ℕ × String)) :
    (insertDesc x l).length = l.length + 1 := by
  induction l with
  | nil => rfl
  | cons y ys ih =>
    simp only [insertDesc]
    split <;> simp [ih]

theorem head?_insertDesc (x : ℕ × String) (l : List (ℕ × String)) :
    (insertDesc x l).head? = some (match l with
      | [] => x
      | y :: _ => maxStep y x) := by
  cases l with
  | nil => rfl
  | cons y ys =>
    simp only [insertDesc, maxStep]
    split <;> simp

theorem pySortDesc_append_singleton (l : List (ℕ × String)) (x : ℕ × String) :
    pySortDesc (l ++ [x]) = insertDesc x (pySortDesc l) := by
  simp [pySortDesc, List.foldl_append]

theorem length_pySortDesc (l : List (ℕ × String)) :
    (pySortDesc l).length = l.length := by
  induction l using List.reverseRecOn with
  | nil => rfl
  | append_singleton l x ih =>
    rw [pySortDesc_append_singleton, length_insertDesc, ih]
    simp

theorem head?_pySortDesc (l : List (ℕ × String)) :
    (pySortDesc l).head? = firstMax l := by
  induction l using List.reverseRecOn with
  | nil => rfl
  | append_singleton l x ih =>
    rw [pySortDesc_append_singleton, head?_insertDesc]
    cases hl : l with
    | nil => subst hl; rfl
    | cons y ys =>
      subst hl
      have hne : pySortDesc (y :: ys) ≠ [] := by
        intro h
        have hlen := length_pySortDesc (y :: ys)
        rw [h] at hlen
        simp at hlen
      cases hd : pySortDesc (y :: ys) with
      | nil => exact absurd hd hne
      | cons z zs =>
        rw [hd] at ih
        simp only [firstMax, List.head?, Option.some.injEq] at ih
        show some (maxStep z x) = firstMax (y :: (ys ++ [x]))
        simp only [firstMax, Option.some.injEq, List.foldl_append, List.foldl_cons,
          List.foldl_nil]
        rw [ih]

/-- Characterisation of the fold computing the first-encountered maximum. -/
theorem foldl_maxStep_spec (xs : List (ℕ × String)) (b m : ℕ × String)
    (hm : xs.foldl maxStep b = m) :
    (∀ w ∈ xs, w.1 ≤ m.1) ∧ b.1 ≤ m.1 ∧
      (m = b ∨ ∃ l₁ l₂, xs = l₁ ++ m :: l₂ ∧ b.1 < m.1 ∧ ∀ w ∈ l₁, w.1 < m.1) := by
  induction xs generalizing b with
  | nil =>
    simp only [List.foldl_nil] at hm
    exact ⟨by simp, hm ▸ le_rfl, Or.inl hm.symm⟩
  | cons y ys ih =>
    rw [List.foldl_cons] at hm
    obtain ⟨ihbound, ihb, ihpos⟩ := ih (maxStep b y) hm
    by_cases hy : y.1 ≤ b.1
    · have hb : maxStep b y = b := by simp [maxStep, hy]
      rw [hb] at ihb ihpos
      refine ⟨?_, ihb, ?_⟩
      · intro w hw
        rcases List.mem_cons.mp hw with hw | hw
        · exact hw ▸ le_trans hy ihb
        · exact ihbound w hw
      · rcases ihpos with h | ⟨l₁, l₂, hsplit, hlt, hall⟩
        · exact Or.inl h
        · refine Or.inr ⟨y :: l₁, l₂, by rw [hsplit]; rfl, hlt, ?_⟩
          intro w hw
          rcases List.mem_cons.mp hw with hw | hw
          · exact hw ▸ lt_of_le_of_lt hy hlt
          · exact hall w hw
    · have hb : maxStep b y = y := by simp [maxStep, hy]
      push_neg at hy
      rw [hb] at ihb ihpos
      refine ⟨?_, le_of_lt (lt_of_lt_of_le hy ihb), ?_⟩
      · intro w hw
        rcases List.mem_cons.mp hw with hw | hw
        · exact hw ▸ ihb
        · exact ihbound w hw
      · rcases ihpos with h | ⟨l₁, l₂, hsplit, hlt, hall⟩
        · exact Or.inr ⟨[], ys, by rw [h]; rfl, by rw [h]; exact hy, by simp⟩
        · refine Or.inr ⟨y :: l₁, l₂, by rw [hsplit]; rfl, lt_trans hy hlt, ?_⟩
          intro w hw
          rcases List.mem_cons.mp hw with hw | hw
          · exact hw ▸ hlt
          · exact hall w hw

theorem firstMax_spec (vs : List (ℕ × String)) (m : ℕ × String)
    (h : firstMax vs = some m) :
    ∃ l₁ l₂, vs = l₁ ++ m :: l₂ ∧ (∀ w ∈ l₁, w.1 < m.1) ∧ ∀ w ∈ vs, w.1 ≤ m.1 := by
  cases vs with
  | nil => simp [firstMax] at h
  | cons x xs =>
    simp only [firstMax, Option.some.injEq] at h
    obtain ⟨hbound, hx, hpos⟩ := foldl_maxStep_spec xs x m h
    rcases hpos with heq | ⟨l₁, l₂, hsplit, hlt, hall⟩
    · refine ⟨[], xs, by rw [heq]; rfl, by simp, ?_⟩
      intro w hw
      rcases List.mem_cons.mp hw with hw | hw
      · exact hw ▸ le_of_eq (by rw [heq])
      · exact hbound w hw
    · refine ⟨x :: l₁, l₂, by rw [hsplit]; rfl, ?_, ?_⟩
      · intro w hw
        rcases List.mem_cons.mp hw with hw | hw
        · exact hw ▸ hlt
        · exact hall w hw
      · intro w hw
        rcases List.mem_cons.mp hw with hw | hw
        · exact hw ▸ hx
        · exact hbound w hw


/-! ## Claim C3: best-variant selection -/

/-- Claim C3: for every master playlist text containing at least one parsed
variant, `get_best_quality_playlist` returns the playlist URL of a variant
whose bandwidth is greater than or equal to every other parsed variant's
bandwidth, and among variants of equal maximal bandwidth it returns the
first-encountered one; for master text with zero parsed variants it returns
`none`. -/
theorem best_quality_selects_first_max (lines : List String) (murl : String) :
    (parseVariants murl lines = [] → get_best_quality_playlist lines murl = none) ∧
    (parseVariants murl lines ≠ [] →
      ∃ v l₁ l₂, parseVariants murl lines = l₁ ++ v :: l₂ ∧
        get_best_quality_playlist lines murl = some v.2 ∧
        (∀ w ∈ l₁, w.1 < v.1) ∧
        ∀ w ∈ parseVariants murl lines, w.1 ≤ v.1) := by
  constructor
  · intro h
    unfold get_best_quality_playlist
    rw [h]
    rfl
  · intro h
    cases hv : parseVariants murl lines with
    | nil => exact absurd hv h
    | cons x xs =>
      have hfm : firstMax (x :: xs) = some (xs.foldl maxStep x) := rfl
      obtain ⟨l₁, l₂, hsplit, hall, hbound⟩ :=
        firstMax_spec (x :: xs) (xs.foldl maxStep x) hfm
      refine ⟨xs.foldl maxStep x, l₁, l₂, hsplit, ?_, hall, fun w hw => hbound w (hv ▸ hw)⟩
      unfold get_best_quality_playlist
      rw [hv]
      have hh := head?_pySortDesc (x :: xs)
      rw [hfm] at hh
      cases hs : pySortDesc (x :: xs) with
      | nil => rw [hs] at hh; simp [List.head?] at hh
      | cons p ps =>
        rw [hs] at hh
        simp only [List.head?, Option.some.injEq] at hh
        simp [hh]

/-- Witness for C3 at the spec's two-variant scenario: the selector picks
the URL paired with bandwidth 1200000. -/
theorem best_quality_selects_first_max_witness :
    parseVariants "http://x/master.m3u8"
        ["#EXT-X-STREAM-INF:BANDWIDTH=500000", "low.m3u8",
         "#EXT-X-STREAM-INF:BANDWIDTH=1200000", "http://y/high.m3u8"] ≠ [] ∧
    (∃ v l₁ l₂,
      parseVariants "http://x/master.m3u8"
        ["#EXT-X-STREAM-INF:BANDWIDTH=500000", "low.m3u8",
         "#EXT-X-STREAM-INF:BANDWIDTH=1200000", "http://y/high.m3u8"] = l₁ ++ v :: l₂ ∧
      get_best_quality_playlist
        ["#EXT-X-STREAM-INF:BANDWIDTH=500000", "low.m3u8",
         "#EXT-X-STREAM-INF:BANDWIDTH=1200000", "http://y/high.m3u8"]
        "http://x/master.m3u8" = some v.2 ∧
      (∀ w ∈ l₁, w.1 < v.1) ∧
      ∀ w ∈ parseVariants "http://x/master.m3u8"
        ["#EXT-X-STREAM-INF:BANDWIDTH=500000", "low.m3u8",
         "#EXT-X-STREAM-INF:BANDWIDTH=1200000", "http://y/high.m3u8"], w.1 ≤ v.1) :=
  ⟨by decide,
   (best_quality_selects_first_max
      ["#EXT-X-STREAM-INF:BANDWIDTH=500000", "low.m3u8",
       "#EXT-X-STREAM-INF:BANDWIDTH=1200000", "http://y/high.m3u8"]
      "http://x/master.m3u8").2 (by decide)⟩

/-! ## Download-loop structure lemmas (claims C1 and C2) -/

theorem startsWith_hash_of_extinf {s : String} (h : pyStartsWith s "#EXTINF" = true) :
    pyStartsWith s "#" = true := by
  unfold pyStartsWith at h ⊢
  rw [List.isPrefixOf_iff_prefix] at h ⊢
  exact List.IsPrefix.trans ⟨"EXTINF".data, rfl⟩ h

theorem isUriLine_false_of_hash {l : String} (h : pyStartsWith (pyStrip l) "#" = true) :
    isUriLine l = false := by
  simp [isUriLine, h]

theorem isUriLine_false_of_blank {l : String} (h : (pyStrip l == "") = true) :
    isUriLine l = false := by
  simp [isUriLine, h]

/-- Structure of the download loop: filenames are consecutively indexed from
`n`; at most `MAX_SEGMENTS - n` segments are added; when every fetch of the
first `min(K, MAX_SEGMENTS - n)` URI lines succeeds exactly that many
segments are returned; and when every fetch succeeds the number of fetch
attempts equals the number of returned segments. -/
theorem segLoop_spec (chid purl : String) (fetch : ℕ → Option String)
    (lines : List String) :
    ∀ (k n : ℕ) (info : Option ℚ) (files files' : List (String × String))
      (segs : List PySeg) (att : ℕ),
      segLoop chid purl fetch lines k n info files = some (files', segs, att) →
      n < MAX_SEGMENTS →
      (segs.map (fun s => s.filename) = (List.range' n segs.length).map segName ∧
       n + segs.length ≤ MAX_SEGMENTS) ∧
      ((∀ i, i < min (uriCount lines) (MAX_SEGMENTS - n) → (fetch (k + i)).isSome) →
        segs.length = min (uriCount lines) (MAX_SEGMENTS - n)) ∧
      ((∀ i, (fetch i).isSome) → att = segs.length) := by
  induction lines with
  | nil =>
    intro k n info files files' segs att h hn
    simp only [segLoop, Option.some.injEq, Prod.mk.injEq] at h
    obtain ⟨-, hsegs, hatt⟩ := h
    subst hsegs
    subst hatt
    refine ⟨⟨rfl, by simp only [List.length_nil]; omega⟩, ?_, fun _ => rfl⟩
    intro _
    simp only [uriCount, List.countP_nil, List.length_nil]
    omega
  | cons l ls ih =>
    intro k n info files files' segs att h hn
    rw [segLoop] at h
    split at h
    · rename_i h1
      have hskip : isUriLine l = false :=
        isUriLine_false_of_hash (startsWith_hash_of_extinf h1)
      have hK : uriCount (l :: ls) = uriCount ls := by
        unfold uriCount
        apply List.countP_cons_of_neg
        simp [hskip]
      rw [hK]
      split at h
      · rename_i g hg
        split at h
        · rename_i d hq
          exact ih k n (some d) files files' segs att h hn
        · exact Option.noConfusion h
      · rename_i hg
        exact ih k n info files files' segs att h hn
    · rename_i h1
      split at h
      · rename_i h2
        have hskip : isUriLine l = false := by
          rcases (Bool.or_eq_true _ _).mp h2 with hh | hh
          · exact isUriLine_false_of_hash hh
          · exact isUriLine_false_of_blank hh
        have hK : uriCount (l :: ls) = uriCount ls := by
          unfold uriCount
          apply List.countP_cons_of_neg
          simp [hskip]
        rw [hK]
        exact ih k n info files files' segs att h hn
      · rename_i h2
        simp only [Bool.or_eq_true, not_or, Bool.not_eq_true] at h2
        have hK : uriCount (l :: ls) = uriCount ls + 1 := by
          unfold uriCount
          apply List.countP_cons_of_pos
          simp [isUriLine, h2.1, h2.2]
        rw [hK]
        split at h
        · rename_i payload hf
          split at h
          · rename_i hbrk
            simp only [Option.some.injEq, Prod.mk.injEq] at h
            obtain ⟨-, hsegs, hatt⟩ := h
            subst hsegs
            subst hatt
            refine ⟨⟨?_, ?_⟩, ?_, fun _ => rfl⟩
            · simp [List.range'_succ]
            · simp only [List.length_cons, List.length_nil]
              omega
            · intro _
              simp only [List.length_cons, List.length_nil]
              omega
          · rename_i hbrk
            dsimp only at h
            split at h
            · rename_i f2 segs2 att2 hrec
              simp only [Option.some.injEq, Prod.mk.injEq] at h
              obtain ⟨-, hsegs, hatt⟩ := h
              subst hsegs
              subst hatt
              have hn1 : n + 1 < MAX_SEGMENTS := by omega
              obtain ⟨⟨hnames, hbound⟩, hcount, hatt2⟩ :=
                ih (k + 1) (n + 1) none (fsWrite files (segName n) payload)
                  f2 segs2 att2 hrec hn1
              refine ⟨⟨?_, ?_⟩, ?_, ?_⟩
              · simp [List.range'_succ, hnames]
              · simp only [List.length_cons]
                omega
              · intro hall
                have hall2 : ∀ i, i < min (uriCount ls) (MAX_SEGMENTS - (n + 1)) →
                    (fetch (k + 1 + i)).isSome := by
                  intro i hi
                  have hx := hall (i + 1) (by omega)
                  rwa [show k + (i + 1) = k + 1 + i by omega] at hx
                have hlen2 := hcount hall2
                simp only [List.length_cons]
                omega
              · intro hall
                simp only [List.length_cons]
                rw [hatt2 hall]
            · exact Option.noConfusion h
        · rename_i hf
          dsimp only at h
          split at h
          · rename_i f2 segs2 att2 hrec
            simp only [Option.some.injEq, Prod.mk.injEq] at h
            obtain ⟨-, hsegs, hatt⟩ := h
            subst hsegs
            subst hatt
            obtain ⟨⟨hnames, hbound⟩, -, -⟩ :=
              ih (k + 1) n info files f2 segs2 att2 hrec hn
            refine ⟨⟨hnames, hbound⟩, ?_, ?_⟩
            · intro hall
              have h0 := hall 0 (by omega)
              rw [Nat.add_zero, hf] at h0
              simp at h0
            · intro hall
              have h0 := hall k
              rw [hf] at h0
              simp at h0
          · exact Option.noConfusion h

/-- Claim C1: whenever `download_segments` returns normally, the returned
segments are named `seg_0000.ts`, `seg_0001.ts`, ... contiguously (a failed
fetch never consumes a filename index, so the n-th successfully persisted
segment is always named with index n); and if each fetch of the first
`min(K, MAX_SEGMENTS)` of the playlist's `K` URI lines succeeds, exactly
`min(K, MAX_SEGMENTS)` segments are returned. -/
theorem download_contiguous_numbering (chid purl : String)
    (fetch : ℕ → Option String) (lines : List String)
    (files files' : List (String × String)) (segs : List PySeg) (att : ℕ)
    (h : segLoop chid purl fetch lines 0 0 none files = some (files', segs, att)) :
    segs.map (fun s => s.filename) = (List.range segs.length).map segName ∧
    ((∀ i, i < min (uriCount lines) MAX_SEGMENTS → (fetch i).isSome) →
      segs.length = min (uriCount lines) MAX_SEGMENTS) := by
  obtain ⟨⟨hnames, -⟩, hcount, -⟩ :=
    segLoop_spec chid purl fetch lines 0 0 none files files' segs att h
      (by norm_num [MAX_SEGMENTS])
  constructor
  · rw [List.range_eq_range']
    exact hnames
  · intro hall
    have := hcount (by intro i hi; simpa using hall i (by simpa using hi))
    simpa using this

/-- Witness for C1: a three-URI playlist whose second fetch fails yields
segments named `seg_0000.ts`, `seg_0001.ts` with no gap (the failed fetch
consumed no filename index). -/
theorem download_contiguous_numbering_witness :
    segLoop "ch" "http://h/p.m3u8"
        (fun i => if i == 1 then none else some "payload")
        ["#EXTINF:2.0,", "a.ts", "#EXTINF:3.5,", "b.ts", "c.ts"] 0 0 none [] =
      some ([("seg_0000.ts", "payload"), ("seg_0001.ts", "payload")],
        [⟨"seg_0000.ts", 2, "segments/ch/seg_0000.ts", "http://h/a.ts"⟩,
         ⟨"seg_0001.ts", mkRat 7 2, "segments/ch/seg_0001.ts", "http://h/c.ts"⟩], 3) ∧
    ([(⟨"seg_0000.ts", 2, "segments/ch/seg_0000.ts", "http://h/a.ts"⟩ : PySeg),
      ⟨"seg_0001.ts", mkRat 7 2, "segments/ch/seg_0001.ts", "http://h/c.ts"⟩].map
        (fun s => s.filename) =
      (List.range 2).map segName ∧
     ((∀ i, i < min (uriCount ["#EXTINF:2.0,", "a.ts", "#EXTINF:3.5,", "b.ts", "c.ts"])
          MAX_SEGMENTS →
        ((fun i => if i == 1 then none else some "payload") i).isSome) →
       ([(⟨"seg_0000.ts", 2, "segments/ch/seg_0000.ts", "http://h/a.ts"⟩ : PySeg),
         ⟨"seg_0001.ts", mkRat 7 2, "segments/ch/seg_0001.ts", "http://h/c.ts"⟩] :
           List PySeg).length =
         min (uriCount ["#EXTINF:2.0,", "a.ts", "#EXTINF:3.5,", "b.ts", "c.ts"])
           MAX_SEGMENTS)) :=
  have h : segLoop "ch" "http://h/p.m3u8"
      (fun i => if i == 1 then none else some "payload")
      ["#EXTINF:2.0,", "a.ts", "#EXTINF:3.5,", "b.ts", "c.ts"] 0 0 none [] =
    some ([("seg_0000.ts", "payload"), ("seg_0001.ts", "payload")],
      [⟨"seg_0000.ts", 2, "segments/ch/seg_0000.ts", "http://h/a.ts"⟩,
       ⟨"seg_0001.ts", mkRat 7 2, "segments/ch/seg_0001.ts", "http://h/c.ts"⟩], 3) := by
    decide
  ⟨h, download_contiguous_numbering "ch" "http://h/p.m3u8"
      (fun i => if i == 1 then none else some "payload")
      ["#EXTINF:2.0,", "a.ts", "#EXTINF:3.5,", "b.ts", "c.ts"] _ _ _ _ h⟩

/-- Claim C2: the download loop persists at most `MAX_SEGMENTS` segments per
cycle; in particular for a playlist of 12 URI lines whose fetches all
succeed, it persists exactly the ten files `seg_0000.ts` ... `seg_0009.ts`
and performs only ten fetch attempts, never fetching the remaining two
URIs. -/
theorem download_retention_window (chid purl : String)
    (fetch : ℕ → Option String) (lines : List String)
    (files files' : List (String × String)) (segs : List PySeg) (att : ℕ)
    (h : segLoop chid purl fetch lines 0 0 none files = some (files', segs, att)) :
    segs.length ≤ MAX_SEGMENTS ∧
    (uriCount lines = 12 → (∀ i, (fetch i).isSome) →
      segs.map (fun s => s.filename) = (List.range 10).map segName ∧ att = 10) := by
  obtain ⟨⟨hnames, hbound⟩, hcount, hatt⟩ :=
    segLoop_spec chid purl fetch lines 0 0 none files files' segs att h
      (by norm_num [MAX_SEGMENTS])
  refine ⟨by omega, ?_⟩
  intro h12 hall
  have hlen : segs.length = 10 := by
    have := hcount (fun i _ => hall (0 + i))
    rw [h12] at this
    simpa [MAX_SEGMENTS] using this
  refine ⟨?_, ?_⟩
  · rw [List.range_eq_range', ← hlen]
    exact hnames
  · rw [hatt hall, hlen]

/-- Witness for C2: a playlist of 12 URI lines with all fetches succeeding
persists exactly `seg_0000.ts` ... `seg_0009.ts` in ten fetch attempts. -/
theorem download_retention_window_witness :
    segLoop "ch" "http://h/p.m3u8" (fun _ => some "x")
        ["u00.ts", "u01.ts", "u02.ts", "u03.ts", "u04.ts", "u05.ts",
         "u06.ts", "u07.ts", "u08.ts", "u09.ts", "u10.ts", "u11.ts"]
        0 0 none [] =
      some ([("seg_0000.ts", "x"), ("seg_0001.ts", "x"), ("seg_0002.ts", "x"),
             ("seg_0003.ts", "x"), ("seg_0004.ts", "x"), ("seg_0005.ts", "x"),
             ("seg_0006.ts", "x"), ("seg_0007.ts", "x"), ("seg_0008.ts", "x"),
             ("seg_0009.ts", "x")],
        [⟨"seg_0000.ts", 2, "segments/ch/seg_0000.ts", "http://h/u00.ts"⟩,
         ⟨"seg_0001.ts", 2, "segments/ch/seg_0001.ts", "http://h/u01.ts"⟩,
         ⟨"seg_0002.ts", 2, "segments/ch/seg_0002.ts", "http://h/u02.ts"⟩,
         ⟨"seg_0003.ts", 2, "segments/ch/seg_0003.ts", "http://h/u03.ts"⟩,
         ⟨"seg_0004.ts", 2, "segments/ch/seg_0004.ts", "http://h/u04.ts"⟩,
         ⟨"seg_0005.ts", 2, "segments/ch/seg_0005.ts", "http://h/u05.ts"⟩,
         ⟨"seg_0006.ts", 2, "segments/ch/seg_0006.ts", "http://h/u06.ts"⟩,
         ⟨"seg_0007.ts", 2, "segments/ch/seg_0007.ts", "http://h/u07.ts"⟩,
         ⟨"seg_0008.ts", 2, "segments/ch/seg_0008.ts", "http://h/u08.ts"⟩,
         ⟨"seg_0009.ts", 2, "segments/ch/seg_0009.ts", "http://h/u09.ts"⟩], 10) ∧
    ([⟨"seg_0000.ts", 2, "segments/ch/seg_0000.ts", "http://h/u00.ts"⟩,
      ⟨"seg_0001.ts", 2, "segments/ch/seg_0001.ts", "http://h/u01.ts"⟩,
      ⟨"seg_0002.ts", 2, "segments/ch/seg_0002.ts", "http://h/u02.ts"⟩,
      ⟨"seg_0003.ts", 2, "segments/ch/seg_0003.ts", "http://h/u03.ts"⟩,
      ⟨"seg_0004.ts", 2, "segments/ch/seg_0004.ts", "http://h/u04.ts"⟩,
      ⟨"seg_0005.ts", 2, "segments/ch/seg_0005.ts", "http://h/u05.ts"⟩,
      ⟨"seg_0006.ts", 2, "segments/ch/seg_0006.ts", "http://h/u06.ts"⟩,
      ⟨"seg_0007.ts", 2, "segments/ch/seg_0007.ts", "http://h/u07.ts"⟩,
      ⟨"seg_0008.ts", 2, "segments/ch/seg_0008.ts", "http://h/u08.ts"⟩,
      (⟨"seg_0009.ts", 2, "segments/ch/seg_0009.ts", "http://h/u09.ts"⟩ : PySeg)] :
        List PySeg).length ≤ MAX_SEGMENTS ∧
    ([⟨"seg_0000.ts", 2, "segments/ch/seg_0000.ts", "http://h/u00.ts"⟩,
      ⟨"seg_0001.ts", 2, "segments/ch/seg_0001.ts", "http://h/u01.ts"⟩,
      ⟨"seg_0002.ts", 2, "segments/ch/seg_0002.ts", "http://h/u02.ts"⟩,
      ⟨"seg_0003.ts", 2, "segments/ch/seg_0003.ts", "http://h/u03.ts"⟩,
      ⟨"seg_0004.ts", 2, "segments/ch/seg_0004.ts", "http://h/u04.ts"⟩,
      ⟨"seg_0005.ts", 2, "segments/ch/seg_0005.ts", "http://h/u05.ts"⟩,
      ⟨"seg_0006.ts", 2, "segments/ch/seg_0006.ts", "http://h/u06.ts"⟩,
      ⟨"seg_0007.ts", 2, "segments/ch/seg_0007.ts", "http://h/u07.ts"⟩,
      ⟨"seg_0008.ts", 2, "segments/ch/seg_0008.ts", "http://h/u08.ts"⟩,
      (⟨"seg_0009.ts", 2, "segments/ch/seg_0009.ts", "http://h/u09.ts"⟩ : PySeg)] :
        List PySeg).map (fun s => s.filename) = (List.range 10).map segName :=
  have h : segLoop "ch" "http://h/p.m3u8" (fun _ => some "x")
      ["u00.ts", "u01.ts", "u02.ts", "u03.ts", "u04.ts", "u05.ts",
       "u06.ts", "u07.ts", "u08.ts", "u09.ts", "u10.ts", "u11.ts"]
      0 0 none [] =
    some ([("seg_0000.ts", "x"), ("seg_0001.ts", "x"), ("seg_0002.ts", "x"),
           ("seg_0003.ts", "x"), ("seg_0004.ts", "x"), ("seg_0005.ts", "x"),
           ("seg_0006.ts", "x"), ("seg_0007.ts", "x"), ("seg_0008.ts", "x"),
           ("seg_0009.ts", "x")],
      [⟨"seg_0000.ts", 2, "segments/ch/seg_0000.ts", "http://h/u00.ts"⟩,
       ⟨"seg_0001.ts", 2, "segments/ch/seg_0001.ts", "http://h/u01.ts"⟩,
       ⟨"seg_0002.ts", 2, "segments/ch/seg_0002.ts", "http://h/u02.ts"⟩,
       ⟨"seg_0003.ts", 2, "segments/ch/seg_0003.ts", "http://h/u03.ts"⟩,
       ⟨"seg_0004.ts", 2, "segments/ch/seg_0004.ts", "http://h/u04.ts"⟩,
       ⟨"seg_0005.ts", 2, "segments/ch/seg_0005.ts", "http://h/u05.ts"⟩,
       ⟨"seg_0006.ts", 2, "segments/ch/seg_0006.ts", "http://h/u06.ts"⟩,
       ⟨"seg_0007.ts", 2, "segments/ch/seg_0007.ts", "http://h/u07.ts"⟩,
       ⟨"seg_0008.ts", 2, "segments/ch/seg_0008.ts", "http://h/u08.ts"⟩,
       ⟨"seg_0009.ts", 2, "segments/ch/seg_0009.ts", "http://h/u09.ts"⟩], 10) := by
    decide
  have main := download_retention_window "ch" "http://h/p.m3u8" (fun _ => some "x")
    ["u00.ts", "u01.ts", "u02.ts", "u03.ts", "u04.ts", "u05.ts",
     "u06.ts", "u07.ts", "u08.ts", "u09.ts", "u10.ts", "u11.ts"]
    [] _ _ _ h
  ⟨h, main.1, (main.2 (by decide) (fun _ => rfl)).1⟩

/-! ## Claim C7: default duration handling -/

/-- Counterexample to claim C7 as stated: in the playlist
`#EXTINF:5.0,` / `#EXTINF:x,` / `a.ts` with all fetches succeeding, the URI
`a.ts` is immediately preceded by a duration tag whose numeric value is
unparsable (the regex finds no match), yet the recorded duration is the
stale pending value 5 from the earlier tag, not the claimed fixed default
of 2.0 seconds. -/
theorem default_duration_counterexample :
    extinfGroup (pyStrip "#EXTINF:x,") = none ∧
    (segLoop "ch" "http://h/p.m3u8" (fun _ => some "x")
        ["#EXTINF:5.0,", "#EXTINF:x,", "a.ts"] 0 0 none []).map
      (fun r => r.2.1.map (fun s => s.duration)) = some [5] ∧
    ¬((5 : ℚ) = 2) :=
  ⟨by decide, by decide, by decide⟩

/-- Amended claim C7: provided every duration tag's matched numeric text is
a valid float literal (otherwise the scan raises), a missing or
non-matching duration tag never causes a parse failure or a skipped URI,
and each persisted segment's recorded duration equals the most recently
parsed tag value since the last persisted segment, with the fixed 2.0
second default used exactly when no parsed value is pending — the
refinement of the loop's durations to `durationsSpec`. -/
theorem default_duration_amended (chid purl : String) (fetch : ℕ → Option String)
    (lines : List String) :
    ∀ (k n : ℕ) (info : Option ℚ) (files : List (String × String)),
      (segLoop chid purl fetch lines k n info files).map
        (fun r => r.2.1.map (fun s => s.duration)) =
      durationsSpec fetch lines k n info := by
  induction lines with
  | nil => intro k n info files; rfl
  | cons l ls ih =>
    intro k n info files
    rw [segLoop, durationsSpec]
    by_cases h1 : pyStartsWith (pyStrip l) "#EXTINF" = true
    · rw [if_pos h1, if_pos h1]
      cases hg : extinfGroup (pyStrip l) with
      | none => exact ih k n info files
      | some g =>
        dsimp only
        cases hq : pyFloatQ g with
        | none => rfl
        | some d => exact ih k n (some d) files
    · rw [if_neg h1, if_neg h1]
      by_cases h2 : (pyStartsWith (pyStrip l) "#" || (pyStrip l == "")) = true
      · rw [if_pos h2, if_pos h2]
        exact ih k n info files
      · rw [if_neg h2, if_neg h2]
        cases hf : fetch k with
        | none =>
          dsimp only
          rw [← ih (k + 1) n info files]
          cases segLoop chid purl fetch ls (k + 1) n info files with
          | none => rfl
          | some trip => rfl
        | some payload =>
          dsimp only
          by_cases hbrk : MAX_SEGMENTS ≤ n + 1
          · rw [if_pos hbrk, if_pos hbrk]
            rfl
          · rw [if_neg hbrk, if_neg hbrk]
            rw [← ih (k + 1) (n + 1) none (fsWrite files (segName n) payload)]
            cases segLoop chid purl fetch ls (k + 1) (n + 1) none
                (fsWrite files (segName n) payload) with
            | none => rfl
            | some trip => rfl


/-! ## Claims C4 and C10: retention pruning -/

theorem insSorted_perm (x : String) (l : List String) :
    List.Perm (insSorted x l) (x :: l) := by
  induction l with
  | nil => exact List.Perm.refl _
  | cons y ys ih =>
    rw [insSorted]
    split
    · exact List.Perm.refl _
    · exact (ih.cons y).trans (List.Perm.swap x y ys)

theorem sortNames_perm (l : List String) : List.Perm (sortNames l) l := by
  induction l with
  | nil => exact List.Perm.refl _
  | cons x xs ih =>
    exact (insSorted_perm x (sortNames xs)).trans (ih.cons x)

/-- Every name scheduled for deletion matches the `seg_*.ts` pattern. -/
theorem doomed_matches {files : List (String × String)} {keep : ℕ} {d : String}
    (hd : d ∈ (sortNames ((files.map Prod.fst).filter matchesSegTs)).take
        ((sortNames ((files.map Prod.fst).filter matchesSegTs)).length - keep)) :
    matchesSegTs d = true := by
  have h1 : d ∈ sortNames ((files.map Prod.fst).filter matchesSegTs) :=
    List.mem_of_mem_take hd
  have h2 : d ∈ (files.map Prod.fst).filter matchesSegTs :=
    (sortNames_perm _).mem_iff.mp h1
  exact (List.mem_filter.mp h2).2

/-- Pruning a directory whose matching-file count is within the window
changes nothing. -/
theorem cleanup_noop (files : List (String × String)) (keep : ℕ)
    (h : files.countP (fun f => matchesSegTs f.1) ≤ keep) :
    cleanup_old_segments files keep = files := by
  have hlen : (sortNames ((files.map Prod.fst).filter matchesSegTs)).length ≤ keep := by
    rw [(sortNames_perm _).length_eq, ← List.countP_eq_length_filter,
      List.countP_map]
    exact h
  simp only [cleanup_old_segments]
  rw [if_neg (Nat.not_lt.mpr hlen)]

/-- After pruning, the number of `seg_*.ts` files equals the smaller of the
previous count and the window. -/
theorem cleanup_seg_count (files : List (String × String)) (keep : ℕ)
    (hnd : (files.map Prod.fst).Nodup) :
    (cleanup_old_segments files keep).countP (fun f => matchesSegTs f.1) =
      min (files.countP (fun f => matchesSegTs f.1)) keep := by
  have hMlen : files.countP (fun f => matchesSegTs f.1) =
      ((files.map Prod.fst).filter matchesSegTs).length := by
    rw [← List.countP_eq_length_filter, List.countP_map]
    rfl
  simp only [cleanup_old_segments]
  by_cases hguard : keep <
      (sortNames ((files.map Prod.fst).filter matchesSegTs)).length
  · rw [if_pos hguard]
    have hSlen := (sortNames_perm ((files.map Prod.fst).filter matchesSegTs)).length_eq
    have hmin : min (files.countP (fun f => matchesSegTs f.1)) keep = keep := by
      omega
    rw [hmin]
    set S := sortNames ((files.map Prod.fst).filter matchesSegTs) with hS
    set doomed := S.take (S.length - keep) with hdoomed
    rw [List.countP_filter]
    have hstep1 : files.countP
        (fun f => matchesSegTs f.1 && !doomed.contains f.1) =
        (files.map Prod.fst).countP (fun a => matchesSegTs a && !doomed.contains a) := by
      rw [List.countP_map]
      rfl
    rw [hstep1]
    have hstep2 : (files.map Prod.fst).countP
        (fun a => matchesSegTs a && !doomed.contains a) =
        ((files.map Prod.fst).filter matchesSegTs).countP
          (fun a => !doomed.contains a) := by
      rw [List.countP_filter]
      congr 1
      funext a
      rw [Bool.and_comm]
    rw [hstep2]
    rw [← (sortNames_perm ((files.map Prod.fst).filter matchesSegTs)).countP_eq]
    have hsplit : S = doomed ++ S.drop (S.length - keep) :=
      (List.take_append_drop (S.length - keep) S).symm
    have hnodupS : S.Nodup := by
      rw [hS]
      exact (sortNames_perm _).symm.nodup (hnd.filter _)
    have hdisj : List.Disjoint doomed (S.drop (S.length - keep)) := by
      have hx := hsplit ▸ hnodupS
      exact (List.nodup_append.mp hx).2.2
    rw [← hS, hsplit, List.countP_append]
    have hzero : doomed.countP (fun a => !doomed.contains a) = 0 := by
      rw [List.countP_eq_zero]
      intro a ha
      simp [List.contains, List.elem_iff, ha]
    have hfull : (S.drop (S.length - keep)).countP (fun a => !doomed.contains a) =
        (S.drop (S.length - keep)).length := by
      rw [List.countP_eq_length]
      intro a ha
      have hna : a ∉ doomed := fun hmem => hdisj hmem ha
      simp [List.contains, List.elem_iff, hna]
    rw [hzero, hfull, List.length_drop]
    omega
  · rw [if_neg hguard]
    have hSlen := (sortNames_perm ((files.map Prod.fst).filter matchesSegTs)).length_eq
    omega

/-- Claim C4: retention pruning caps the number of persisted `seg_*.ts`
files at the retention window, and pruning a second time with no
intervening fetches leaves the file set unchanged (idempotence). -/
theorem cleanup_idempotent (files : List (String × String))
    (hnd : (files.map Prod.fst).Nodup) :
    (cleanup_old_segments files MAX_SEGMENTS).countP (fun f => matchesSegTs f.1) ≤
      MAX_SEGMENTS ∧
    cleanup_old_segments (cleanup_old_segments files MAX_SEGMENTS) MAX_SEGMENTS =
      cleanup_old_segments files MAX_SEGMENTS := by
  have hcount := cleanup_seg_count files MAX_SEGMENTS hnd
  constructor
  · omega
  · exact cleanup_noop _ _ (by omega)

/-- Witness for C4 at a directory of twelve segment files and the playlist
file. -/
theorem cleanup_idempotent_witness :
    ((["seg_0000.ts", "seg_0001.ts", "seg_0002.ts", "seg_0003.ts",
       "seg_0004.ts", "seg_0005.ts", "seg_0006.ts", "seg_0007.ts",
       "seg_0008.ts", "seg_0009.ts", "seg_0010.ts", "seg_0011.ts",
       "playlist.m3u8"].map (fun n => (n, "c"))).map Prod.fst).Nodup ∧
    ((cleanup_old_segments
        (["seg_0000.ts", "seg_0001.ts", "seg_0002.ts", "seg_0003.ts",
          "seg_0004.ts", "seg_0005.ts", "seg_0006.ts", "seg_0007.ts",
          "seg_0008.ts", "seg_0009.ts", "seg_0010.ts", "seg_0011.ts",
          "playlist.m3u8"].map (fun n => (n, "c"))) MAX_SEGMENTS).countP
        (fun f => matchesSegTs f.1) ≤ MAX_SEGMENTS ∧
      cleanup_old_segments
        (cleanup_old_segments
          (["seg_0000.ts", "seg_0001.ts", "seg_0002.ts", "seg_0003.ts",
            "seg_0004.ts", "seg_0005.ts", "seg_0006.ts", "seg_0007.ts",
            "seg_0008.ts", "seg_0009.ts", "seg_0010.ts", "seg_0011.ts",
            "playlist.m3u8"].map (fun n => (n, "c"))) MAX_SEGMENTS) MAX_SEGMENTS =
        cleanup_old_segments
          (["seg_0000.ts", "seg_0001.ts", "seg_0002.ts", "seg_0003.ts",
            "seg_0004.ts", "seg_0005.ts", "seg_0006.ts", "seg_0007.ts",
            "seg_0008.ts", "seg_0009.ts", "seg_0010.ts", "seg_0011.ts",
            "playlist.m3u8"].map (fun n => (n, "c"))) MAX_SEGMENTS) :=
  ⟨by decide, cleanup_idempotent _ (by decide)⟩

/-- Claim C10: pruning never touches a missing directory, only ever deletes
`seg_*.ts` files (in particular `playlist.m3u8`, which does not match, is
never deleted), and deletes nothing when at most `MAX_SEGMENTS` matching
files are present. -/
theorem cleanup_frame (files : List (String × String)) (name content : String) :
    cleanupDir none MAX_SEGMENTS = none ∧
    matchesSegTs "playlist.m3u8" = false ∧
    ((name, content) ∈ files → matchesSegTs name = false →
      (name, content) ∈ cleanup_old_segments files MAX_SEGMENTS) ∧
    (files.countP (fun f => matchesSegTs f.1) ≤ MAX_SEGMENTS →
      cleanup_old_segments files MAX_SEGMENTS = files) := by
  refine ⟨rfl, by decide, ?_, fun h => cleanup_noop files MAX_SEGMENTS h⟩
  intro hmem hnomatch
  simp only [cleanup_old_segments]
  split
  · rw [List.mem_filter]
    refine ⟨hmem, ?_⟩
    have key : ∀ doomed : List String,
        (∀ d ∈ doomed, matchesSegTs d = true) →
        (!(doomed.contains name)) = true := by
      intro doomed hall
      have hnotin : name ∉ doomed := by
        intro hin
        rw [hall name hin] at hnomatch
        exact Bool.noConfusion hnomatch
      simp [List.contains, List.elem_iff, hnotin]
    exact key _ (fun d hd => doomed_matches hd)
  · exact hmem

/-- Witness for C10: the playlist file survives pruning of a directory with
eleven segment files. -/
theorem cleanup_frame_witness :
    ("playlist.m3u8", "P") ∈
      [("playlist.m3u8", "P"), ("seg_0000.ts", "a"), ("seg_0001.ts", "b"),
       ("seg_0002.ts", "c"), ("seg_0003.ts", "d"), ("seg_0004.ts", "e"),
       ("seg_0005.ts", "f"), ("seg_0006.ts", "g"), ("seg_0007.ts", "h"),
       ("seg_0008.ts", "i"), ("seg_0009.ts", "j"), ("seg_0010.ts", "k")] ∧
    matchesSegTs "playlist.m3u8" = false ∧
    ("playlist.m3u8", "P") ∈ cleanup_old_segments
      [("playlist.m3u8", "P"), ("seg_0000.ts", "a"), ("seg_0001.ts", "b"),
       ("seg_0002.ts", "c"), ("seg_0003.ts", "d"), ("seg_0004.ts", "e"),
       ("seg_0005.ts", "f"), ("seg_0006.ts", "g"), ("seg_0007.ts", "h"),
       ("seg_0008.ts", "i"), ("seg_0009.ts", "j"), ("seg_0010.ts", "k")]
      MAX_SEGMENTS :=
  ⟨by decide, by decide,
   (cleanup_frame
      [("playlist.m3u8", "P"), ("seg_0000.ts", "a"), ("seg_0001.ts", "b"),
       ("seg_0002.ts", "c"), ("seg_0003.ts", "d"), ("seg_0004.ts", "e"),
       ("seg_0005.ts", "f"), ("seg_0006.ts", "g"), ("seg_0007.ts", "h"),
       ("seg_0008.ts", "i"), ("seg_0009.ts", "j"), ("seg_0010.ts", "k")]
      "playlist.m3u8" "P").2.2.1 (by decide) (by decide)⟩


/-! ## Claim C6: whole-channel failure atomicity -/

/-- When the download loop persists zero segments it performed zero writes,
so the directory content it returns is exactly its input. -/
theorem segLoop_no_write_of_no_seg (chid purl : String)
    (fetch : ℕ → Option String) (lines : List String) :
    ∀ (k n : ℕ) (info : Option ℚ) (files files' : List (String × String)) (att : ℕ),
      segLoop chid purl fetch lines k n info files = some (files', [], att) →
      files' = files := by
  induction lines with
  | nil =>
    intro k n info files files' att h
    simp only [segLoop, Option.some.injEq, Prod.mk.injEq] at h
    exact h.1.symm
  | cons l ls ih =>
    intro k n info files files' att h
    rw [segLoop] at h
    split at h
    · split at h
      · rename_i g hg
        split at h
        · exact ih _ _ _ _ _ _ h
        · exact Option.noConfusion h
      · exact ih _ _ _ _ _ _ h
    · split at h
      · exact ih _ _ _ _ _ _ h
      · split at h
        · rename_i payload hf
          split at h
          · simp only [Option.some.injEq, Prod.mk.injEq] at h
            exact absurd h.2.1 (by simp)
          · rename_i hbrk
            dsimp only at h
            split at h
            · rename_i f2 segs2 att2 hrec
              simp only [Option.some.injEq, Prod.mk.injEq] at h
              exact absurd h.2.1 (by simp)
            · exact Option.noConfusion h
        · rename_i hf
          dsimp only at h
          split at h
          · rename_i f2 segs2 att2 hrec
            simp only [Option.some.injEq, Prod.mk.injEq] at h
            obtain ⟨hf2, hsegs, -⟩ := h
            subst hsegs
            exact hf2 ▸ ih _ _ _ _ _ _ hrec
          · exact Option.noConfusion h

/-- Claim C6: if the media-playlist fetch fails, or zero segments are
successfully fetched, the channel's cycle reports failure and performs no
pruning and no emission: every file of the channel directory has exactly
the content it had before. -/
theorem channel_failure_atomic (env : ChanEnv) (ch : Channel)
    (dir dir' : Option (List (String × String))) (r : ChResult)
    (h : processChannel env ch dir = some (dir', r)) :
    (env.mediaLines = none → r.success = false ∧
      ∀ nm, lookupFile (dir'.getD []) nm = lookupFile (dir.getD []) nm) ∧
    (∀ murl mlines plines files' att,
      env.manifestUrl = some murl → env.masterLines = some mlines →
      env.mediaLines = some plines →
      segLoop ch.id ((get_best_quality_playlist mlines murl).getD murl) env.fetch
        plines 0 0 none (dir.getD []) = some (files', [], att) →
      r.success = false ∧
      ∀ nm, lookupFile (dir'.getD []) nm = lookupFile (dir.getD []) nm) := by
  rw [processChannel] at h
  constructor
  · intro hml
    split at h
    · simp only [Option.some.injEq, Prod.mk.injEq] at h
      obtain ⟨hd, hr⟩ := h
      subst hd
      exact ⟨by rw [← hr], fun nm => rfl⟩
    · rename_i murl hmu
      split at h
      · simp only [Option.some.injEq, Prod.mk.injEq] at h
        obtain ⟨hd, hr⟩ := h
        subst hd
        exact ⟨by rw [← hr], fun nm => rfl⟩
      · rename_i mlines hma
        split at h
        · simp only [Option.some.injEq, Prod.mk.injEq] at h
          obtain ⟨hd, hr⟩ := h
          subst hd
          exact ⟨by rw [← hr], fun nm => rfl⟩
        · rename_i plines hme
          rw [hml] at hme
          exact Option.noConfusion hme
  · intro murl mlines plines files' att hmu hma hme hloop
    rw [hmu] at h
    dsimp only at h
    rw [hma] at h
    dsimp only at h
    rw [hme] at h
    dsimp only at h
    rw [hloop] at h
    dsimp only at h
    have hcond : ([] : List PySeg).isEmpty = true := rfl
    rw [if_pos hcond] at h
    simp only [Option.some.injEq, Prod.mk.injEq] at h
    obtain ⟨hd, hr⟩ := h
    have hfiles : files' = dir.getD [] :=
      segLoop_no_write_of_no_seg _ _ _ _ _ _ _ _ _ _ hloop
    refine ⟨by rw [← hr], ?_⟩
    intro nm
    rw [← hd, Option.getD_some, hfiles]

/-- Witness for C6: a channel whose media-playlist fetch fails is reported
unsuccessful and its directory content is untouched. -/
theorem channel_failure_atomic_witness :
    processChannel ⟨some "http://m/x.m3u8", some [], none, fun _ => none⟩
        ⟨"ch", "Name", "http://yt", "logo", "grp"⟩
        (some [("seg_0000.ts", "old"), ("playlist.m3u8", "P")]) =
      some (some [("seg_0000.ts", "old"), ("playlist.m3u8", "P")],
        ⟨⟨"ch", "Name", "http://yt", "logo", "grp"⟩, false, 0⟩) ∧
    ((⟨⟨"ch", "Name", "http://yt", "logo", "grp"⟩, false, 0⟩ : ChResult).success = false ∧
      ∀ nm, lookupFile ((some [("seg_0000.ts", "old"), ("playlist.m3u8", "P")] :
          Option (List (String × String))).getD []) nm =
        lookupFile ((some [("seg_0000.ts", "old"), ("playlist.m3u8", "P")] :
          Option (List (String × String))).getD []) nm) :=
  have h : processChannel ⟨some "http://m/x.m3u8", some [], none, fun _ => none⟩
      ⟨"ch", "Name", "http://yt", "logo", "grp"⟩
      (some [("seg_0000.ts", "old"), ("playlist.m3u8", "P")]) =
    some (some [("seg_0000.ts", "old"), ("playlist.m3u8", "P")],
      ⟨⟨"ch", "Name", "http://yt", "logo", "grp"⟩, false, 0⟩) := by decide
  ⟨h, (channel_failure_atomic _ _ _ _ _ h).1 rfl⟩

/-! ## Claim C8: master playlist aggregation -/

theorem master_foldl_append (results : List ChResult) :
    ∀ acc : List String,
      results.foldl (fun acc r => if r.success then acc ++ masterEntry r else acc) acc =
        acc ++ (results.filter (fun r => r.success)).flatMap masterEntry := by
  induction results with
  | nil => intro acc; simp
  | cons r rs ih =>
    intro acc
    rw [List.foldl_cons]
    by_cases hs : r.success = true
    · rw [if_pos hs, ih, List.filter_cons_of_pos hs, List.flatMap_cons,
        List.append_assoc]
    · rw [if_neg hs, ih, List.filter_cons_of_neg hs]

/-- Claim C8: the master playlist contains, after the fixed header lines,
exactly one three-line entry (extended-info line, playlist URL, blank) per
channel marked successful, in order, and omits unsuccessful channels
entirely; it is written unconditionally after all channels are processed,
and with zero successes it consists of the header lines only. -/
theorem master_playlist_entries (now : String) (results : List ChResult) :
    generate_master_m3u now results =
      masterHeader now ++ (results.filter (fun r => r.success)).flatMap masterEntry ∧
    ((∀ r ∈ results, r.success = false) →
      generate_master_m3u now results = masterHeader now) ∧
    (∀ (envOf : ℕ → ChanEnv) (channels : List Channel)
        (fs : String → Option (List (String × String)))
        (res : List ChResult) (m : Option (List String)) (exit : ℕ),
      channels ≠ [] → runMain now envOf channels fs = some (res, m, exit) →
      m = some (generate_master_m3u now res)) := by
  refine ⟨master_foldl_append results (masterHeader now), ?_, ?_⟩
  · intro hall
    rw [generate_master_m3u, master_foldl_append results (masterHeader now)]
    have hnil : results.filter (fun r => r.success) = [] := by
      rw [List.filter_eq_nil_iff]
      intro r hr
      rw [hall r hr]
      exact Bool.noConfusion
    rw [hnil, List.flatMap_nil, List.append_nil]
  · intro envOf channels fs res m exit hne h
    rw [runMain] at h
    rw [if_neg (by simpa using hne)] at h
    split at h
    · exact Option.noConfusion h
    · rename_i res0 fsf hp
      simp only [Option.some.injEq, Prod.mk.injEq] at h
      obtain ⟨hres, hm, -⟩ := h
      rw [← hm, hres]

/-- Witness for C8 at a two-channel result list with one success. -/
theorem master_playlist_entries_witness :
    generate_master_m3u "T"
        [⟨⟨"a", "A", "u", "l", "g"⟩, true, 3⟩, ⟨⟨"b", "B", "u2", "l2", "g2"⟩, false, 0⟩] =
      masterHeader "T" ++
        (([⟨⟨"a", "A", "u", "l", "g"⟩, true, 3⟩,
           ⟨⟨"b", "B", "u2", "l2", "g2"⟩, false, 0⟩] : List ChResult).filter
            (fun r => r.success)).flatMap masterEntry ∧
    generate_master_m3u "T" [⟨⟨"b", "B", "u2", "l2", "g2"⟩, false, 0⟩] =
      masterHeader "T" :=
  ⟨(master_playlist_entries "T"
      [⟨⟨"a", "A", "u", "l", "g"⟩, true, 3⟩,
       ⟨⟨"b", "B", "u2", "l2", "g2"⟩, false, 0⟩]).1,
   (master_playlist_entries "T" [⟨⟨"b", "B", "u2", "l2", "g2"⟩, false, 0⟩]).2.1
     (by decide)⟩

/-! ## Claim C9: run exit status and channel isolation -/

theorem runChannels_length (envOf : ℕ → ChanEnv) (chs : List Channel) :
    ∀ (i : ℕ) (fs : String → Option (List (String × String)))
      (res : List ChResult) (fsf : String → Option (List (String × String))),
      runChannels envOf chs i fs = some (res, fsf) → res.length = chs.length := by
  induction chs with
  | nil =>
    intro i fs res fsf h
    simp only [runChannels, Option.some.injEq, Prod.mk.injEq] at h
    rw [← h.1]
    rfl
  | cons ch rest ih =>
    intro i fs res fsf h
    rw [runChannels] at h
    split at h
    · exact Option.noConfusion h
    · rename_i dir' r hp
      split at h
      · exact Option.noConfusion h
      · rename_i rs fsFin hq
        simp only [Option.some.injEq, Prod.mk.injEq] at h
        obtain ⟨hres, -⟩ := h
        rw [← hres]
        simp only [List.length_cons]
        rw [ih _ _ _ _ hq]

/-- Claim C9: whenever `main` completes over a non-empty channel list, the
exit status is 0 exactly when at least one channel's cycle succeeded (and 1
otherwise), and every channel was processed: one result per channel, so no
single channel's failure aborts the rest. -/
theorem run_exit_status (now : String) (envOf : ℕ → ChanEnv)
    (channels : List Channel) (fs : String → Option (List (String × String)))
    (res : List ChResult) (master : Option (List String)) (exit : ℕ)
    (h : runMain now envOf channels fs = some (res, master, exit))
    (hne : channels ≠ []) :
    (exit = 0 ↔ ∃ r ∈ res, r.success = true) ∧ res.length = channels.length := by
  rw [runMain] at h
  rw [if_neg (by simpa using hne)] at h
  split at h
  · exact Option.noConfusion h
  · rename_i res0 fsf hp
    simp only [Option.some.injEq, Prod.mk.injEq] at h
    obtain ⟨hres, -, hexit⟩ := h
    subst hres
    constructor
    · rw [← hexit]
      by_cases hpos : 0 < res0.countP (fun r => r.success)
      · rw [if_pos hpos]
        simp only [true_iff]
        exact List.countP_pos_iff.mp hpos
      · rw [if_neg hpos]
        constructor
        · intro hx
          exact absurd hx one_ne_zero
        · intro hex
          exact absurd (List.countP_pos_iff.mpr hex) hpos
    · exact runChannels_length envOf channels 0 fs res0 fsf hp


/-- Witness for C9: a run over two channels in which the first fails at
resolution and the second succeeds exits with status 0, with one result per
channel. -/
theorem run_exit_status_witness :
    runMain "T"
        (fun i => if i == 0 then ⟨none, none, none, fun _ => none⟩
          else ⟨some "http://m/x.m3u8", some [], some ["s.ts"], fun _ => some "x"⟩)
        [⟨"c1", "One", "u1", "l1", "g1"⟩, ⟨"c2", "Two", "u2", "l2", "g2"⟩]
        (fun _ => none) =
      some ([⟨⟨"c1", "One", "u1", "l1", "g1"⟩, false, 0⟩,
             ⟨⟨"c2", "Two", "u2", "l2", "g2"⟩, true, 1⟩],
        some ["#EXTM3U", "", "# YouTube Live Restream - Segments hosted on GitHub",
          "# Last updated: T", "",
          "#EXTINF:-1 group-title=\"g2\" tvg-logo=\"l2\" tvg-id=\"c2\", Two",
          "https://raw.githubusercontent.com/invisiblecoder99/youtube-restream/main/segments/c2/playlist.m3u8",
          ""], 0) ∧
    ((0 = 0 ↔ ∃ r ∈ [(⟨⟨"c1", "One", "u1", "l1", "g1"⟩, false, 0⟩ : ChResult),
        ⟨⟨"c2", "Two", "u2", "l2", "g2"⟩, true, 1⟩], r.success = true) ∧
      ([(⟨⟨"c1", "One", "u1", "l1", "g1"⟩, false, 0⟩ : ChResult),
        ⟨⟨"c2", "Two", "u2", "l2", "g2"⟩, true, 1⟩] : List ChResult).length =
        ([⟨"c1", "One", "u1", "l1", "g1"⟩,
          (⟨"c2", "Two", "u2", "l2", "g2"⟩ : Channel)] : List Channel).length) :=
  have h : runMain "T"
      (fun i => if i == 0 then ⟨none, none, none, fun _ => none⟩
        else ⟨some "http://m/x.m3u8", some [], some ["s.ts"], fun _ => some "x"⟩)
      [⟨"c1", "One", "u1", "l1", "g1"⟩, ⟨"c2", "Two", "u2", "l2", "g2"⟩]
      (fun _ => none) =
    some ([⟨⟨"c1", "One", "u1", "l1", "g1"⟩, false, 0⟩,
           ⟨⟨"c2", "Two", "u2", "l2", "g2"⟩, true, 1⟩],
      some ["#EXTM3U", "", "# YouTube Live Restream - Segments hosted on GitHub",
        "# Last updated: T", "",
        "#EXTINF:-1 group-title=\"g2\" tvg-logo=\"l2\" tvg-id=\"c2\", Two",
        "https://raw.githubusercontent.com/invisiblecoder99/youtube-restream/main/segments/c2/playlist.m3u8",
        ""], 0) := by decide
  ⟨h, run_exit_status "T"
    (fun i => if i == 0 then ⟨none, none, none, fun _ => none⟩
      else ⟨some "http://m/x.m3u8", some [], some ["s.ts"], fun _ => some "x"⟩)
    [⟨"c1", "One", "u1", "l1", "g1"⟩, ⟨"c2", "Two", "u2", "l2", "g2"⟩]
    (fun _ => none) _ _ _ h (by decide)⟩


/-! ## Claim C5: local playlist round-trip -/

theorem str_data_append (a b : String) : (a ++ b).data = a.data ++ b.data := rfl

theorem dropWhile_no_sat {p : Char → Bool} {cs : List Char}
    (h : ∀ c ∈ cs, p c = false) : cs.dropWhile p = cs := by
  cases cs with
  | nil => rfl
  | cons c cs' =>
    rw [List.dropWhile_cons, if_neg]
    simp [h c (List.mem_cons_self c cs')]

theorem pyStrip_no_ws {s : String} (h : ∀ c ∈ s.data, pyWS c = false) :
    pyStrip s = s := by
  obtain ⟨cs⟩ := s
  show (⟨((cs.dropWhile pyWS).reverse.dropWhile pyWS).reverse⟩ : String) = ⟨cs⟩
  rw [dropWhile_no_sat h]
  rw [dropWhile_no_sat (fun c hc => h c (List.mem_reverse.mp hc))]
  rw [List.reverse_reverse]

theorem digitChar_spec (d : ℕ) (hd : d < 10) :
    (Nat.digitChar d).isDigit = true ∧ ((Nat.digitChar d) == '.') = false ∧
      charVal (Nat.digitChar d) = d ∧ pyWS (Nat.digitChar d) = false := by
  interval_cases d <;> exact ⟨rfl, rfl, rfl, rfl⟩

theorem natDigitsRev_digits (fuel : ℕ) :
    ∀ (n : ℕ) (c : Char), c ∈ natDigitsRev fuel n →
      ∃ d, d < 10 ∧ c = Nat.digitChar d := by
  induction fuel with
  | zero => intro n c hc; simp [natDigitsRev] at hc
  | succ f ih =>
    intro n c hc
    rw [natDigitsRev] at hc
    by_cases h0 : n = 0
    · rw [if_pos h0] at hc; simp at hc
    · rw [if_neg h0] at hc
      rcases List.mem_cons.mp hc with hce | hcr
      · exact ⟨n % 10, Nat.mod_lt _ (by norm_num), hce⟩
      · exact ih (n / 10) c hcr

theorem valDigits_append_one (cs : List Char) (c : Char) :
    valDigits (cs ++ [c]) = 10 * valDigits cs + charVal c := by
  simp [valDigits, List.foldl_append]

theorem valDigits_natDigitsRev (fuel : ℕ) :
    ∀ n : ℕ, n ≤ fuel → valDigits ((natDigitsRev fuel n).reverse) = n := by
  induction fuel with
  | zero =>
    intro n hn
    interval_cases n
    rfl
  | succ f ih =>
    intro n hn
    rw [natDigitsRev]
    by_cases h0 : n = 0
    · rw [if_pos h0, h0]; rfl
    · rw [if_neg h0, List.reverse_cons, valDigits_append_one,
        ih (n / 10) (by omega),
        (digitChar_spec (n % 10) (Nat.mod_lt _ (by norm_num))).2.2.1]
      omega

theorem natChars_ne_nil (n : ℕ) : natChars n ≠ [] := by
  rw [natChars]
  by_cases h0 : n = 0
  · rw [if_pos h0]; simp
  · rw [if_neg h0]
    obtain ⟨f, rfl⟩ : ∃ f, n = f + 1 := ⟨n - 1, by omega⟩
    rw [natDigitsRev, if_neg h0]
    simp

theorem natChars_spec (n : ℕ) :
    ∀ c ∈ natChars n, c.isDigit = true ∧ (c == '.') = false ∧ pyWS c = false := by
  intro c hc
  rw [natChars] at hc
  by_cases h0 : n = 0
  · rw [if_pos h0] at hc
    simp at hc
    subst hc
    exact ⟨rfl, rfl, rfl⟩
  · rw [if_neg h0] at hc
    obtain ⟨d, hd, rfl⟩ := natDigitsRev_digits n n c (List.mem_reverse.mp hc)
    obtain ⟨h1, h2, -, h4⟩ := digitChar_spec d hd
    exact ⟨h1, h2, h4⟩

theorem valDigits_natChars (n : ℕ) : valDigits (natChars n) = n := by
  rw [natChars]
  by_cases h0 : n = 0
  · rw [if_pos h0, h0]; rfl
  · rw [if_neg h0]
    exact valDigits_natDigitsRev n n le_rfl

theorem pad3_mem (m : ℕ) (hm : m < 1000) :
    ∀ c ∈ pad3 m, c.isDigit = true ∧ (c == '.') = false ∧ pyWS c = false := by
  intro c hc
  have h1 := digitChar_spec (m / 100) (by omega)
  have h2 := digitChar_spec (m / 10 % 10) (by omega)
  have h3 := digitChar_spec (m % 10) (by omega)
  simp only [pad3, List.mem_cons, List.not_mem_nil, or_false] at hc
  rcases hc with rfl | rfl | rfl
  · exact ⟨h1.1, h1.2.1, h1.2.2.2⟩
  · exact ⟨h2.1, h2.2.1, h2.2.2.2⟩
  · exact ⟨h3.1, h3.2.1, h3.2.2.2⟩

theorem pad3_val (m : ℕ) (hm : m < 1000) : valDigits (pad3 m) = m := by
  have h1 := digitChar_spec (m / 100) (by omega)
  have h2 := digitChar_spec (m / 10 % 10) (by omega)
  have h3 := digitChar_spec (m % 10) (by omega)
  show 10 * (10 * (10 * 0 + charVal (Nat.digitChar (m / 100))) +
      charVal (Nat.digitChar (m / 10 % 10))) + charVal (Nat.digitChar (m % 10)) = m
  rw [h1.2.2.1, h2.2.2.1, h3.2.2.1]
  omega

theorem takeWhile_append_stop {p : Char → Bool} :
    ∀ (a : List Char) (b : Char) (r : List Char), (∀ c ∈ a, p c = true) →
      p b = false → ((a ++ b :: r).takeWhile p) = a := by
  intro a
  induction a with
  | nil =>
    intro b r _ hb
    simp [List.takeWhile_cons, hb]
  | cons x xs ih =>
    intro b r ha hb
    rw [List.cons_append, List.takeWhile_cons,
      if_pos (ha x (List.mem_cons_self x xs)),
      ih b r (fun c hc => ha c (List.mem_cons_of_mem x hc)) hb]

theorem dropWhile_append_stop {p : Char → Bool} :
    ∀ (a : List Char) (b : Char) (r : List Char), (∀ c ∈ a, p c = true) →
      p b = false → ((a ++ b :: r).dropWhile p) = b :: r := by
  intro a
  induction a with
  | nil =>
    intro b r _ hb
    simp [List.dropWhile_cons, hb]
  | cons x xs ih =>
    intro b r ha hb
    rw [List.cons_append, List.dropWhile_cons,
      if_pos (ha x (List.mem_cons_self x xs)),
      ih b r (fun c hc => ha c (List.mem_cons_of_mem x hc)) hb]

theorem fmt3_data (q : ℚ) :
    (fmt3 q).data = natChars ((thousandths q).toNat / 1000) ++
      '.' :: pad3 ((thousandths q).toNat % 1000) := rfl

theorem thousandths_nonneg (q : ℚ) (hq : 0 ≤ q) : 0 ≤ thousandths q := by
  have hnum : 0 ≤ q.num := Rat.num_nonneg.mpr hq
  have hden : (0 : ℤ) ≤ (q.den : ℤ) := Int.natCast_nonneg _
  exact Int.fdiv_nonneg (by omega) (by omega)

theorem fmt3_digitDot (q : ℚ) : ∀ c ∈ (fmt3 q).data, digitDot c = true := by
  rw [fmt3_data]
  intro c hc
  rcases List.mem_append.mp hc with hc1 | hc2
  · have hx := natChars_spec _ c hc1
    simp [digitDot, hx.1]
  · rcases List.mem_cons.mp hc2 with rfl | hc3
    · rfl
    · have hx := pad3_mem _ (Nat.mod_lt _ (by norm_num)) c hc3
      simp [digitDot, hx.1]

theorem fmt3_no_ws (q : ℚ) : ∀ c ∈ (fmt3 q).data, pyWS c = false := by
  rw [fmt3_data]
  intro c hc
  rcases List.mem_append.mp hc with hc1 | hc2
  · exact (natChars_spec _ c hc1).2.2
  · rcases List.mem_cons.mp hc2 with rfl | hc3
    · rfl
    · exact (pad3_mem _ (Nat.mod_lt _ (by norm_num)) c hc3).2.2

/-- Parsing the three-decimal rendering of a nonnegative duration recovers
exactly its value rounded to thousandths. -/
theorem pyFloatQ_fmt3 (q : ℚ) (hq : 0 ≤ q) :
    pyFloatQ (fmt3 q) = some (roundTo3 q) := by
  have hA := valDigits_natChars ((thousandths q).toNat / 1000)
  have hB := pad3_val ((thousandths q).toNat % 1000) (Nat.mod_lt _ (by norm_num))
  have hdot_notmem_nat : '.' ∉ natChars ((thousandths q).toNat / 1000) := by
    intro hmem
    have hx := (natChars_spec _ '.' hmem).2.1
    simp at hx
  have hdot_notmem_pad : '.' ∉ pad3 ((thousandths q).toNat % 1000) := by
    intro hmem
    have hx := (pad3_mem _ (Nat.mod_lt _ (by norm_num)) '.' hmem).2.1
    simp at hx
  have hcount : (fmt3 q).data.count '.' = 1 := by
    rw [fmt3_data, List.count_append, List.count_cons_self,
      List.count_eq_zero.mpr hdot_notmem_nat,
      List.count_eq_zero.mpr hdot_notmem_pad]
  have hne := natChars_ne_nil ((thousandths q).toNat / 1000)
  obtain ⟨c0, hc0⟩ := List.exists_mem_of_ne_nil _ hne
  have hnat_take : ∀ c ∈ natChars ((thousandths q).toNat / 1000),
      (decide (c ≠ '.')) = true := by
    intro c hc
    have hx := (natChars_spec _ c hc).2.1
    simp only [decide_eq_true_eq]
    intro heq
    rw [heq] at hx
    simp at hx
  have hdot_fails : (decide (('.' : Char) ≠ '.')) = false := by decide
  simp only [pyFloatQ]
  rw [if_pos]
  · rw [fmt3_data, takeWhile_append_stop _ _ _ hnat_take hdot_fails,
      dropWhile_append_stop _ _ _ hnat_take hdot_fails, List.drop_one,
      List.tail_cons]
    have hlen : (pad3 ((thousandths q).toNat % 1000)).length = 3 := rfl
    rw [hlen, hA, hB]
    have htn := Int.toNat_of_nonneg (thousandths_nonneg q hq)
    have hvalz : ((((thousandths q).toNat / 1000 : ℕ) : ℤ) * 10 ^ 3 +
        (((thousandths q).toNat % 1000 : ℕ) : ℤ)) = thousandths q := by
      rw [show (10 : ℤ) ^ 3 = 1000 from by norm_num]
      omega
    rw [hvalz, show (10 : ℕ) ^ 3 = 1000 from by norm_num, roundTo3]
  · rw [Bool.and_eq_true, Bool.and_eq_true]
    refine ⟨⟨List.all_eq_true.mpr (fmt3_digitDot q), ?_⟩, ?_⟩
    · rw [hcount]
      decide
    · refine List.any_eq_true.mpr ⟨c0, ?_, (natChars_spec _ c0 hc0).1⟩
      rw [fmt3_data]
      exact List.mem_append_left _ hc0


theorem extinfSearch_concat (c0 : Char) (cs0 : List Char)
    (hg : ∀ c ∈ c0 :: cs0, digitDot c = true) :
    extinfSearch ("#EXTINF:".data ++ (c0 :: cs0 ++ [','])) = some (c0 :: cs0) := by
  have hpre : ("#EXTINF:".data.isPrefixOf
      ("#EXTINF:".data ++ (c0 :: cs0 ++ [',']))) = true := by
    rw [List.isPrefixOf_iff_prefix]
    exact List.prefix_append _ _
  have hrun : (("#EXTINF:".data ++ (c0 :: cs0 ++ [','])).drop 8).takeWhile digitDot
      = c0 :: cs0 := by
    rw [show (8 : ℕ) = "#EXTINF:".data.length from rfl, List.drop_left]
    exact takeWhile_append_stop (c0 :: cs0) ',' [] hg (by decide)
  show (if "#EXTINF:".data.isPrefixOf ("#EXTINF:".data ++ (c0 :: cs0 ++ [','])) then
      if ((("#EXTINF:".data ++ (c0 :: cs0 ++ [','])).drop 8).takeWhile digitDot).isEmpty then
        extinfSearch ("EXTINF:".data ++ (c0 :: cs0 ++ [',']))
      else some ((("#EXTINF:".data ++ (c0 :: cs0 ++ [','])).drop 8).takeWhile digitDot)
    else extinfSearch ("EXTINF:".data ++ (c0 :: cs0 ++ [',']))) = some (c0 :: cs0)
  rw [if_pos hpre, hrun, if_neg (by simp)]

theorem segLoop_extinf_step (chid purl : String) (fetch : ℕ → Option String)
    (q : ℚ) (hq : 0 ≤ q) (ls : List String) (k n : ℕ) (info : Option ℚ)
    (files : List (String × String)) :
    segLoop chid purl fetch (("#EXTINF:" ++ fmt3 q ++ ",") :: ls) k n info files =
      segLoop chid purl fetch ls k n (some (roundTo3 q)) files := by
  have hdata : ("#EXTINF:" ++ fmt3 q ++ ",").data =
      "#EXTINF:".data ++ ((fmt3 q).data ++ [',']) := by
    rw [str_data_append, str_data_append, List.append_assoc]
  have hstrip : pyStrip ("#EXTINF:" ++ fmt3 q ++ ",") = "#EXTINF:" ++ fmt3 q ++ "," := by
    apply pyStrip_no_ws
    rw [hdata]
    intro c hc
    rcases List.mem_append.mp hc with hc1 | hc2
    · exact (by decide : ∀ c ∈ "#EXTINF:".data, pyWS c = false) c hc1
    · rcases List.mem_append.mp hc2 with hc3 | hc4
      · exact fmt3_no_ws q c hc3
      · rcases List.mem_cons.mp hc4 with rfl | h
        · rfl
        · simp at h
  have hsw : pyStartsWith ("#EXTINF:" ++ fmt3 q ++ ",") "#EXTINF" = true := rfl
  have hgrp : extinfGroup ("#EXTINF:" ++ fmt3 q ++ ",") = some (fmt3 q) := by
    obtain ⟨c0, cs0, hcc⟩ : ∃ c0 cs0, (fmt3 q).data = c0 :: cs0 := by
      cases hx : (fmt3 q).data with
      | nil =>
        rw [fmt3_data] at hx
        exact absurd (List.append_eq_nil.mp hx).1 (natChars_ne_nil _)
      | cons a b => exact ⟨a, b, rfl⟩
    rw [extinfGroup, hdata, hcc]
    rw [extinfSearch_concat c0 cs0 (by rw [← hcc]; exact fmt3_digitDot q)]
    rw [← hcc]
    rfl
  rw [segLoop, hstrip, if_pos hsw, hgrp]
  dsimp only
  rw [pyFloatQ_fmt3 q hq]

theorem segLoop_skip (chid purl : String) (fetch : ℕ → Option String)
    (l : String) (ls : List String) (k n : ℕ) (info : Option ℚ)
    (files : List (String × String))
    (h1 : pyStartsWith (pyStrip l) "#EXTINF" = false)
    (h2 : (pyStartsWith (pyStrip l) "#" || (pyStrip l == "")) = true) :
    segLoop chid purl fetch (l :: ls) k n info files =
      segLoop chid purl fetch ls k n info files := by
  rw [segLoop, if_neg (by simp [h1]), if_pos h2]

theorem reparse_aux (chid base : String) (segs : List PySeg) :
    ∀ (n k : ℕ) (files : List (String × String)),
      n + segs.length ≤ MAX_SEGMENTS →
      (∀ s ∈ segs, 0 ≤ s.duration) →
      (∀ s ∈ segs, ∀ c ∈ s.filename.data, pyWS c = false) →
      (∀ c ∈ chid.data, pyWS c = false) →
      (segLoop chid base (fun _ => some "") (segs.flatMap (fun s =>
          ["#EXTINF:" ++ fmt3 s.duration ++ ",",
           githubChannelBase chid ++ "/" ++ s.filename])) k n none files).map
        (fun r => r.2.1.map (fun s => (s.duration, s.url))) =
      some (segs.map (fun s =>
        (roundTo3 s.duration, githubChannelBase chid ++ "/" ++ s.filename))) := by
  induction segs with
  | nil =>
    intro n k files _ _ _ _
    rfl
  | cons s rest ih =>
    intro n k files hbound hdur hfn hchid
    simp only [List.flatMap_cons, List.cons_append, List.nil_append]
    rw [segLoop_extinf_step chid base (fun _ => some "") s.duration
      (hdur s (List.mem_cons_self s rest))]
    have hbdata : (githubChannelBase chid).data =
        "https://raw.githubusercontent.com/invisiblecoder99/youtube-restream/main/segments/".data
          ++ chid.data := rfl
    have hldata : (githubChannelBase chid ++ "/" ++ s.filename).data =
        (githubChannelBase chid).data ++ ('/' :: s.filename.data) := by
      rw [str_data_append, str_data_append, List.append_assoc]
      rfl
    have hstripU : pyStrip (githubChannelBase chid ++ "/" ++ s.filename) =
        githubChannelBase chid ++ "/" ++ s.filename := by
      apply pyStrip_no_ws
      rw [hldata, hbdata]
      intro c hc
      rcases List.mem_append.mp hc with hc1 | hc2
      · rcases List.mem_append.mp hc1 with hc3 | hc4
        · exact (by decide : ∀ c ∈
            "https://raw.githubusercontent.com/invisiblecoder99/youtube-restream/main/segments/".data,
              pyWS c = false) c hc3
        · exact hchid c hc4
      · rcases List.mem_cons.mp hc2 with rfl | hc5
        · rfl
        · exact hfn s (List.mem_cons_self s rest) c hc5
    have h1U : pyStartsWith (githubChannelBase chid ++ "/" ++ s.filename) "#EXTINF" = false :=
      rfl
    have h2U : (pyStartsWith (githubChannelBase chid ++ "/" ++ s.filename) "#" ||
        ((githubChannelBase chid ++ "/" ++ s.filename) == "")) = false := rfl
    have hhttp : pyStartsWith (githubChannelBase chid ++ "/" ++ s.filename) "http" = true :=
      rfl
    rw [segLoop, hstripU, if_neg (by simp [h1U]), if_neg (by simp [h2U])]
    dsimp only
    rw [resolveUrl, if_pos hhttp]
    by_cases hbrk : MAX_SEGMENTS ≤ n + 1
    · rw [if_pos hbrk]
      have hrest : rest = [] := by
        simp only [List.length_cons] at hbound
        have : rest.length = 0 := by
          have hM : MAX_SEGMENTS = 10 := rfl
          omega
        exact List.eq_nil_of_length_eq_zero this
      subst hrest
      rfl
    · rw [if_neg hbrk]
      have ihx := ih (n + 1) (k + 1) (fsWrite files (segName n) "")
        (by simp only [List.length_cons] at hbound; omega)
        (fun t ht => hdur t (List.mem_cons_of_mem s ht))
        (fun t ht => hfn t (List.mem_cons_of_mem s ht)) hchid
      cases hrec : segLoop chid base (fun _ => some "") (rest.flatMap (fun t =>
          ["#EXTINF:" ++ fmt3 t.duration ++ ",",
           githubChannelBase chid ++ "/" ++ t.filename])) (k + 1) (n + 1) none
          (fsWrite files (segName n) "") with
      | none =>
        rw [hrec] at ihx
        exact absurd ihx (by simp)
      | some trip =>
        obtain ⟨f2, segs2, att2⟩ := trip
        rw [hrec] at ihx
        simp only [Option.map_some', Option.some.injEq] at ihx
        dsimp only
        simp only [Option.map_some', List.map_cons, Option.some.injEq, List.cons.injEq]
        exact ⟨rfl, ihx⟩

/-- Claim C5: re-parsing the emitted local playlist with the media-playlist
scan of `download_segments` (all fetches succeeding) recovers exactly the
ordered (duration, URI) pairs of the retained segment list, with durations
rounded to three decimal places and URIs rewritten to the publishing
location. -/
theorem local_playlist_roundtrip (chid base : String) (segs : List PySeg)
    (ls : List String) (files : List (String × String))
    (hemit : generate_local_m3u8 chid segs = some ls)
    (hlen : segs.length ≤ MAX_SEGMENTS)
    (hdur : ∀ s ∈ segs, 0 ≤ s.duration)
    (hfn : ∀ s ∈ segs, ∀ c ∈ s.filename.data, pyWS c = false)
    (hchid : ∀ c ∈ chid.data, pyWS c = false) :
    (segLoop chid base (fun _ => some "") ls 0 0 none files).map
      (fun r => r.2.1.map (fun s => (s.duration, s.url))) =
    some (segs.map (fun s =>
      (roundTo3 s.duration, githubChannelBase chid ++ "/" ++ s.filename))) := by
  rw [generate_local_m3u8] at hemit
  split at hemit
  · exact Option.noConfusion hemit
  · simp only [Option.some.injEq] at hemit
    subst hemit
    exact reparse_aux chid base segs 0 0 files (by simpa using hlen) hdur hfn hchid

/-- Witness for C5 at a single retained segment of duration 5/2. -/
theorem local_playlist_roundtrip_witness :
    generate_local_m3u8 "ch"
        [⟨"seg_0000.ts", mkRat 5 2, "segments/ch/seg_0000.ts", "http://h/a.ts"⟩] =
      some ["#EXTM3U", "#EXT-X-VERSION:3", "#EXT-X-TARGETDURATION:10",
        "#EXT-X-MEDIA-SEQUENCE:0", "", "#EXTINF:2.500,",
        "https://raw.githubusercontent.com/invisiblecoder99/youtube-restream/main/segments/ch/seg_0000.ts"] ∧
    (segLoop "ch" "http://b/p.m3u8" (fun _ => some "")
        ["#EXTM3U", "#EXT-X-VERSION:3", "#EXT-X-TARGETDURATION:10",
         "#EXT-X-MEDIA-SEQUENCE:0", "", "#EXTINF:2.500,",
         "https://raw.githubusercontent.com/invisiblecoder99/youtube-restream/main/segments/ch/seg_0000.ts"]
        0 0 none []).map (fun r => r.2.1.map (fun s => (s.duration, s.url))) =
      some [(roundTo3 (mkRat 5 2),
        githubChannelBase "ch" ++ "/" ++ "seg_0000.ts")] :=
  have hemit : generate_local_m3u8 "ch"
      [⟨"seg_0000.ts", mkRat 5 2, "segments/ch/seg_0000.ts", "http://h/a.ts"⟩] =
    some ["#EXTM3U", "#EXT-X-VERSION:3", "#EXT-X-TARGETDURATION:10",
      "#EXT-X-MEDIA-SEQUENCE:0", "", "#EXTINF:2.500,",
      "https://raw.githubusercontent.com/invisiblecoder99/youtube-restream/main/segments/ch/seg_0000.ts"] := by
    decide
  ⟨hemit, local_playlist_roundtrip "ch" "http://b/p.m3u8"
    [⟨"seg_0000.ts", mkRat 5 2, "segments/ch/seg_0000.ts", "http://h/a.ts"⟩] _ []
    hemit (by decide) (by decide) (by decide) (by decide)⟩


end Extractor
